import Mathlib

/-!
Shallow embedding of `tomopy/io/data.py` (array-format conversion and
dataset-archival utilities) and proofs about it.

Modelling conventions:
* numpy floating-point values are idealised as rationals (`ℚ`); casts between
  floating widths are value-preserving in this idealisation;
* a numpy C-style float-to-unsigned-integer cast (`astype('uint8')` /
  `astype('uint16')`) truncates toward zero and wraps modulo `2^bits`;
* an ndarray is a (nested) list of values; a 2-D image is `Img`, a 3-D volume
  is `Vol`;
* `np.max` / `np.min` on an empty array raise, modelled by `Option`;
* fallible functions return `Option`, `none` standing for a raised exception
  (or, for `_add_index_to_string`, for Python's implicit `None` result);
* the filesystem is an association list from filename to file content; a write
  prepends, so `List.lookup` returns the most recent write;
* `os.path.abspath` and directory creation are identity / no-ops in this
  filesystem model.
-/

namespace Tomopy

/-- A 2-D image: list of rows of rational pixel values. -/
abbrev Img : Type := List (List ℚ)

/-- A 3-D volume: list of 2-D planes. -/
abbrev Vol : Type := List Img

/-- All elements of a volume, flattened (row-major). -/
def volElems (v : Vol) : List ℚ := v.flatten.flatten

/-- Apply a function to every element of a volume. -/
def mapVol (f : ℚ → ℚ) (v : Vol) : Vol := v.map (List.map (List.map f))

/-- `v` is a rectangular volume with `ny` rows and `nz` columns per plane. -/
def rectVol (v : Vol) (ny nz : ℕ) : Prop :=
  ∀ p ∈ v, p.length = ny ∧ ∀ r ∈ p, r.length = nz

instance (v : Vol) (ny nz : ℕ) : Decidable (rectVol v ny nz) := by
  unfold rectVol; infer_instance

/-- A string of `n` zero characters. -/
def zerosStr (n : ℕ) : String := String.mk (List.replicate n '0')

/-- Decimal digit characters of `n`, most significant first; `fuel` bounds the
recursion depth (`n + 1` always suffices). Embeds Python's `str(ind)`. -/
def decChars : ℕ → ℕ → List Char
  | 0, _ => []
  | fuel + 1, n =>
    if n < 10 then [Nat.digitChar n]
    else decChars fuel (n / 10) ++ [Nat.digitChar (n % 10)]

/-- Decimal representation of a natural number, embedding Python's `str`. -/
def natToDec (n : ℕ) : String := String.mk (decChars (n + 1) n)

/-- Read a decimal digit string back to a number (helper for injectivity
arguments about zero-padded filenames). -/
def decValAux (acc : ℕ) : List Char → ℕ
  | [] => acc
  | c :: cs => decValAux (acc * 10 + (c.toNat - 48)) cs

/-- `np.max` of a 1-D array; `none` models the exception on an empty array. -/
def npMax? : List ℚ → Option ℚ
  | [] => none
  | x :: xs => some (xs.foldl max x)

/-- `np.min` of a 1-D array; `none` models the exception on an empty array. -/
def npMin? : List ℚ → Option ℚ
  | [] => none
  | x :: xs => some (xs.foldl min x)

/-- Truncation toward zero, as a C float-to-integer cast performs. -/
def ratTrunc (q : ℚ) : ℤ := if q < 0 then ⌈q⌉ else ⌊q⌋

/-- `astype('uint8')` applied to one floating value: truncate toward zero and
wrap modulo `2^8`.  The result is returned as a rational, since the model
keeps all array elements in `ℚ`. -/
def u8castQ (q : ℚ) : ℚ := ((ratTrunc q % 256 : ℤ) : ℚ)

/-- `astype('uint16')` applied to one floating value: truncate toward zero and
wrap modulo `2^16`. -/
def u16castQ (q : ℚ) : ℚ := ((ratTrunc q % 65536 : ℤ) : ℚ)

/-- numpy dtypes that appear in the module. -/
inductive DType : Type
  | float32
  | float64
  | uint8
  | uint16
  deriving DecidableEq

/-- An ndarray with an object identity (`uid`), so that "returns the same
object" and "returns a copy" are distinguishable statements. -/
structure NdArray where
  uid : ℕ
  dtype : DType
  val : List ℚ
  deriving DecidableEq

/-- A Python value that can reach `as_float32`: either a numpy scalar (an
instance of a dtype class such as `np.float32`) or an ndarray. -/
inductive PyNum : Type
  | scalar (dt : DType) (v : ℚ)
  | ndarray (a : NdArray)
  deriving DecidableEq

/-- Python's `isinstance(arr, np.float32)`: true only for a `np.float32`
*scalar*; an ndarray is an instance of `np.ndarray`, never of `np.float32`,
whatever its dtype. -/
def isinstance_np_float32 : PyNum → Bool
  | PyNum.scalar DType.float32 _ => true
  | _ => false

/-- The numeric contents of a Python value (a scalar is a 0-d array with one
element). -/
def pyData : PyNum → List ℚ
  | PyNum.scalar _ v => [v]
  | PyNum.ndarray a => a.val

/-- `as_float32` (data.py lines 108-124): if the input is not an instance of
`np.float32`, rebuild it as a float32 array with `np.array(arr, dtype='float32')`
(a fresh object, identified by `freshUid`); otherwise return it unchanged. -/
def as_float32 (arr : PyNum) (freshUid : ℕ) : PyNum :=
  if isinstance_np_float32 arr then arr
  else PyNum.ndarray (NdArray.mk freshUid DType.float32 (pyData arr))

/-- `as_uint8` (data.py lines 127-161) on a 1-D array.  The
`isinstance(arr, np.int8)` guard is false for every ndarray, so the body always
runs.  `np.max(arr)` is evaluated unconditionally in the clipping guard, hence
an empty array raises (`none`).  The second guard takes `np.min` of the
possibly already upper-clipped array, as the source does. -/
def as_uint8 (arr : List ℚ) (dmin? dmax? : Option ℚ) : Option (List ℚ) :=
  match npMax? arr, npMin? arr with
  | some mx, some mn =>
    let dmax := dmax?.getD mx
    let dmin := dmin?.getD mn
    let arr1 := if dmax < mx then arr.map (fun v => if dmax < v then dmax else v) else arr
    match npMin? arr1 with
    | some mn1 =>
      let arr2 := if mn1 < dmin then arr1.map (fun v => if v < dmin then dmin else v) else arr1
      if dmax = dmin then some (arr2.map u8castQ)
      else some (arr2.map (fun v => u8castQ ((v - dmin) / (dmax - dmin) * 255)))
    | none => none
  | _, _ => none

/-- `as_uint16` (data.py lines 164-198) on a 1-D array; identical to
`as_uint8` except for the scale factor `65535` and the 16-bit cast. -/
def as_uint16 (arr : List ℚ) (dmin? dmax? : Option ℚ) : Option (List ℚ) :=
  match npMax? arr, npMin? arr with
  | some mx, some mn =>
    let dmax := dmax?.getD mx
    let dmin := dmin?.getD mn
    let arr1 := if dmax < mx then arr.map (fun v => if dmax < v then dmax else v) else arr
    match npMin? arr1 with
    | some mn1 =>
      let arr2 := if mn1 < dmin then arr1.map (fun v => if v < dmin then dmin else v) else arr1
      if dmax = dmin then some (arr2.map u16castQ)
      else some (arr2.map (fun v => u16castQ ((v - dmin) / (dmax - dmin) * 65535)))
    | none => none
  | _, _ => none

/-- `as_uint8` applied to a 2-D image (the shape `write_tiff_stack` feeds it);
`np.max`/`np.min` range over all pixels. -/
def as_uint8Img (img : Img) (dmin? dmax? : Option ℚ) : Option Img :=
  match npMax? img.flatten, npMin? img.flatten with
  | some mx, some mn =>
    let dmax := dmax?.getD mx
    let dmin := dmin?.getD mn
    let img1 := if dmax < mx then img.map (List.map (fun v => if dmax < v then dmax else v)) else img
    match npMin? img1.flatten with
    | some mn1 =>
      let img2 := if mn1 < dmin then img1.map (List.map (fun v => if v < dmin then dmin else v)) else img1
      if dmax = dmin then some (img2.map (List.map u8castQ))
      else some (img2.map (List.map (fun v => u8castQ ((v - dmin) / (dmax - dmin) * 255))))
    | none => none
  | _, _ => none

/-- `as_uint16` applied to a 2-D image. -/
def as_uint16Img (img : Img) (dmin? dmax? : Option ℚ) : Option Img :=
  match npMax? img.flatten, npMin? img.flatten with
  | some mx, some mn =>
    let dmax := dmax?.getD mx
    let dmin := dmin?.getD mn
    let img1 := if dmax < mx then img.map (List.map (fun v => if dmax < v then dmax else v)) else img
    match npMin? img1.flatten with
    | some mn1 =>
      let img2 := if mn1 < dmin then img1.map (List.map (fun v => if v < dmin then dmin else v)) else img1
      if dmax = dmin then some (img2.map (List.map u16castQ))
      else some (img2.map (List.map (fun v => u16castQ ((v - dmin) / (dmax - dmin) * 65535))))
    | none => none
  | _, _ => none

/-- `_add_index_to_string` (data.py lines 245-278): precompute the padding
strings `string_index[m] = '0' * (digit - m - 1)`, then return at the first
`n < digit` with `ind < 10^(n+1)` the value
`string + '_' + string_index[n] + str(ind)`.  If no `n` qualifies the Python
function falls off the end and returns `None`. -/
def _add_index_to_string (string : String) (ind : ℕ) (digit : ℕ) : Option String :=
  (List.range digit).findSome? (fun n =>
    if ind < 10 ^ (n + 1) then some (string ++ "_" ++ zerosStr (digit - n - 1) ++ natToDec ind)
    else none)

/-- `os.path.isfile` against the association-list filesystem. -/
def isfile (fs : List (String × α)) (name : String) : Bool :=
  (List.lookup name fs).isSome

/-- The `while` loop of `_suggest_new_fname`: try `base + '-' + str(indq) + ext`
for `indq = 1, 2, ...` until the name is free.  `fuel` bounds the iteration
count; `fs.length + 1` candidates always contain a free one. -/
def suggestLoop (fs : List (String × α)) (base ext : String) : ℕ → ℕ → String
  | 0, indq => base ++ "-" ++ natToDec indq ++ ext
  | fuel + 1, indq =>
    let cand := base ++ "-" ++ natToDec indq
    if isfile fs (cand ++ ext) then suggestLoop fs base ext fuel (indq + 1)
    else cand ++ ext

/-- Python's `fname.split(".")` on the character list, structural so that it
evaluates in the kernel. -/
def splitDotAux : List Char → List Char → List (List Char)
  | [], cur => [cur.reverse]
  | c :: cs, cur =>
    if c = '.' then cur.reverse :: splitDotAux cs []
    else splitDotAux cs (c :: cur)

/-- `fname.split(".")` as a list of strings. -/
def pySplitDot (s : String) : List String :=
  (splitDotAux s.data []).map String.mk

/-- `_suggest_new_fname` (data.py lines 281-310): split off the extension
(`split(".")[-1]`), take `split(".")[-2]` as the base, and search for the first
free `base-<N>.<ext>` starting at `N = 1`. -/
def _suggest_new_fname (fs : List (String × α)) (fname : String) : String :=
  let parts := pySplitDot fname
  let ext := "." ++ parts.getLastD ""
  let base := parts.getD (parts.length - 2) ""
  suggestLoop fs base ext (fs.length + 1) 1

/-- A Python `slice(start, stop)` with nonnegative bounds. -/
abbrev Sl : Type := ℕ × ℕ

/-- Apply one slice to one axis; a missing slice defaults to
`slice(0, dim)`, the full extent, as `_slice_array` does. -/
def applySlice (l : List α) (s : Option Sl) (dim : ℕ) : List α :=
  let s := s.getD (0, dim)
  (l.drop s.1).take (s.2 - s.1)

/-- `_slice_array` (data.py lines 313-361), rank-3 branch: default each missing
slice to the full extent of its axis and apply `arr[dim1, dim2, dim3]`; `dim4`
is ignored for a rank-3 array, as in the source. -/
def _slice_array (arr : Vol) (dim1 dim2 dim3 dim4 : Option Sl) : Vol :=
  let n1 := arr.length
  let n2 := (arr.headD []).length
  let n3 := ((arr.headD []).headD []).length
  let _ := dim4
  (applySlice arr dim1 n1).map (fun p =>
    (applySlice p dim2 n2).map (fun r => applySlice r dim3 n3))

/-- The HDF5 file layout `write_hdf5` produces: a root dataset
`implements = "exchange"` and a group `gname` holding dataset `data`. -/
structure H5File where
  implements : String
  gname : String
  dname : String
  payload : Vol
  deriving DecidableEq

/-- The HDF5 filesystem: filename to file content, most recent write first. -/
abbrev H5FS : Type := List (String × H5File)

/-- `write_hdf5` (data.py lines 490-518): append `.h5`; if not overwriting and
the target exists, rename with `_suggest_new_fname`; then create the file with
the `implements` marker and `gname/data` payload. -/
def write_hdf5 (fs : H5FS) (data : Vol) (fname : String) (gname : String)
    (overwrite : Bool) : H5FS :=
  let fname1 := fname ++ ".h5"
  let fname2 :=
    if !overwrite && isfile fs fname1 then _suggest_new_fname fs fname1 else fname1
  (fname2, H5File.mk "exchange" gname "data" data) :: fs

/-- `read_hdf5` (data.py lines 364-390): open the file, look up the dataset at
path `gname` (here, the `<group>/<dataset>` path the writer created), apply
`_slice_array`, and return the data.  `none` models a missing file or path. -/
def read_hdf5 (fs : H5FS) (fname gname : String)
    (dim1 dim2 dim3 dim4 : Option Sl) : Option Vol :=
  match List.lookup fname fs with
  | none => none
  | some f =>
    if gname = f.gname ++ "/" ++ f.dname then
      some (_slice_array f.payload dim1 dim2 dim3 dim4)
    else none

/-- The TIFF filesystem: filename to 2-D image, most recent write first. -/
abbrev TiffFS : Type := List (String × Img)

/-- The per-index read loop of `read_tiff_stack`: for each index `m`, find the
first `n < digit` with `m < 10^(n+1)` (an unrepresentable index is silently
skipped, and the slot counter does not advance), build
`fname + '0'*(digit-n-1) + str(m) + '.' + ext`, and read that file; a missing
file raises (`none`). -/
def readImgs (fs : TiffFS) (fname ext : String) (digit : ℕ) : List ℕ → Option (List Img)
  | [] => some []
  | m :: rest =>
    match (List.range digit).find? (fun n => m < 10 ^ (n + 1)) with
    | none => readImgs fs fname ext digit rest
    | some n =>
      match List.lookup (fname ++ zerosStr (digit - n - 1) ++ natToDec m ++ "." ++ ext) fs with
      | none => none
      | some img =>
        match readImgs fs fname ext digit rest with
        | none => none
        | some imgs => some (img :: imgs)

/-- Assembly step of `read_tiff_stack`: the first image fixes `(sy, sz)`; the
preallocated float32 buffer has `sx` planes and the unfilled ones stay zero.
If no image was read the buffer was never created (a `NameError`), and a shape
mismatch in `data[a] = out` raises; both are `none`. -/
def assembleStack (imgs? : Option (List Img)) (sx : ℕ) : Option Vol :=
  match imgs? with
  | none => none
  | some [] => none
  | some (img0 :: rest) =>
    let sy := img0.length
    let sz := (img0.headD []).length
    if (img0 :: rest).all (fun im => im.length == sy && im.all (fun r => r.length == sz)) then
      some ((img0 :: rest) ++ List.replicate (sx - (img0 :: rest).length)
        (List.replicate sy (List.replicate sz (0 : ℚ))))
    else none

/-- `read_tiff_stack` (data.py lines 444-487): read indices
`span[0] .. span[1]` inclusive into a preallocated 3-D float32 buffer. -/
def read_tiff_stack (fs : TiffFS) (fname : String) (span : ℕ × ℕ) (digit : ℕ)
    (ext : String) : Option Vol :=
  let ind := List.range' span.1 (span.2 + 1 - span.1)
  assembleStack (readImgs fs fname ext digit ind) ind.length

/-- The dtype dispatch of `write_tiff_stack` (the source compares with `is`;
per its interning coincidence this is string equality): `uint8` and `uint16`
go through the rescaling converters, `float32` through `as_float32` (a
value-preserving copy), anything else leaves the plane unconverted. -/
def convertSlice (dtype : String) (dmin dmax : ℚ) (arr : Img) : Option Img :=
  if dtype = "uint8" then as_uint8Img arr (some dmin) (some dmax)
  else if dtype = "uint16" then as_uint16Img arr (some dmin) (some dmax)
  else if dtype = "float32" then some arr
  else some arr

/-- The `.tiff` extension `write_tiff_stack` always appends. -/
def tiffExt : String := ".tiff"

/-- The per-plane loop of `write_tiff_stack`: at position `m` (of `count`
remaining `Nat.succ` steps), index the filename with `ind[m] = idStart + m`
(`None` from `_add_index_to_string` makes the `string + ext` concatenation
raise: `none`), apply collision avoidance unless overwriting, extract the
plane along `axis`, convert it, and write the file. -/
def writeStackLoop (data2 : Vol) (fname : String) (digit : ℕ) (overwrite : Bool)
    (dtype : String) (dmin dmax : ℚ) (axis idStart : ℕ) :
    TiffFS → ℕ → ℕ → Option TiffFS
  | fs, _, 0 => some fs
  | fs, m, count + 1 =>
    match _add_index_to_string fname (idStart + m) digit with
    | none => none
    | some s =>
      let newf := s ++ tiffExt
      let newf2 := if !overwrite && isfile fs newf then _suggest_new_fname fs newf else newf
      let arr : Img :=
        if axis = 0 then data2.getD m []
        else if axis = 1 then data2.map (fun p => p.getD m [])
        else data2.map (fun p => p.map (fun r => r.getD m 0))
      match convertSlice dtype dmin dmax arr with
      | none => none
      | some arr2 =>
        writeStackLoop data2 fname digit overwrite dtype dmin dmax axis idStart
          ((newf2, arr2) :: fs) (m + 1) count

/-- `write_tiff_stack` (data.py lines 521-611): default `dmin`/`dmax` from the
whole volume, clip the caller's array in place (the returned `Vol` is the
final state of that array), then export each plane along `axis` (only axes
0, 1, 2 are handled; any other axis leaves `end_id` unbound, a `NameError`).
`none` models any raised exception. -/
def write_tiff_stack (fs : TiffFS) (data : Vol) (fname : String) (axis idStart digit : ℕ)
    (overwrite : Bool) (dtype : String) (dmin? dmax? : Option ℚ) : Option (Vol × TiffFS) :=
  match npMax? (volElems data), npMin? (volElems data) with
  | some mx, some mn =>
    let dmax := dmax?.getD mx
    let dmin := dmin?.getD mn
    let data1 := if dmax < mx then mapVol (fun v => if dmax < v then dmax else v) data else data
    match npMin? (volElems data1) with
    | some mn1 =>
      let data2 := if mn1 < dmin then mapVol (fun v => if v < dmin then dmin else v) data1 else data1
      let nx := data2.length
      let ny := (data2.headD []).length
      let nz := ((data2.headD []).headD []).length
      let count? : Option ℕ :=
        if axis = 0 then some nx
        else if axis = 1 then some ny
        else if axis = 2 then some nz
        else none
      match count? with
      | none => none
      | some count =>
        match writeStackLoop data2 fname digit overwrite dtype dmin dmax axis idStart fs 0 count with
        | none => none
        | some fs2 => some (data2, fs2)
    | none => none
  | _, _ => none

/-- Modelled from the spec: "the decimal index left-padded with zeros up to
width `d`" — the padding convention the claims compare the indexer against. -/
def leftPadDec (w ind : ℕ) : String :=
  zerosStr (w - (natToDec ind).length) ++ natToDec ind

/-! ### Generic list helpers -/

theorem le_foldl_max (l : List ℚ) : ∀ (a x : ℚ), x ∈ a :: l → x ≤ l.foldl max a := by
  induction l with
  | nil => intro a x hx; simp at hx; simp [hx]
  | cons b t ih =>
    intro a x hx
    have hstep : List.foldl max a (b :: t) = List.foldl max (max a b) t := rfl
    rw [hstep]
    have hmem : x = a ∨ x = b ∨ x ∈ t := by simpa using hx
    rcases hmem with hx | hx | hx
    · subst hx; exact le_trans (le_max_left x b) (ih (max x b) (max x b) (by simp))
    · subst hx; exact le_trans (le_max_right a x) (ih (max a x) (max a x) (by simp))
    · exact ih (max a b) x (by simp [hx])

theorem foldl_min_le (l : List ℚ) : ∀ (a x : ℚ), x ∈ a :: l → l.foldl min a ≤ x := by
  induction l with
  | nil => intro a x hx; simp at hx; simp [hx]
  | cons b t ih =>
    intro a x hx
    have hstep : List.foldl min a (b :: t) = List.foldl min (min a b) t := rfl
    rw [hstep]
    have hmem : x = a ∨ x = b ∨ x ∈ t := by simpa using hx
    rcases hmem with hx | hx | hx
    · subst hx; exact le_trans (ih (min x b) (min x b) (by simp)) (min_le_left x b)
    · subst hx; exact le_trans (ih (min a x) (min a x) (by simp)) (min_le_right a x)
    · exact ih (min a b) x (by simp [hx])

theorem map_eq_self_of (l : List α) (f : α → α) (h : ∀ v ∈ l, f v = v) : l.map f = l := by
  induction l with
  | nil => rfl
  | cons a t ih =>
    simp only [List.map_cons, h a (by simp)]
    rw [ih (fun v hv => h v (by simp [hv]))]

/-! ### Decimal-digit theory for the filename indexer -/

theorem decChars_lt_ten (fuel n : ℕ) (h : n < 10) :
    decChars (fuel + 1) n = [Nat.digitChar n] := by
  simp [decChars, h]

theorem decChars_length (fuel : ℕ) :
    ∀ k n, n < 10 ^ (k + 1) → (10 ^ k ≤ n ∨ k = 0) → k < fuel →
      (decChars fuel n).length = k + 1 := by
  induction fuel with
  | zero => intro k n _ _ h; omega
  | succ fuel ih =>
    intro k n hub hlb _
    by_cases h10 : n < 10
    · have hk : k = 0 := by
        rcases hlb with hlb | hlb
        · by_contra hne
          have h1 : 1 ≤ k := by omega
          have : (10 : ℕ) ^ 1 ≤ 10 ^ k := Nat.pow_le_pow_right (by norm_num) h1
          omega
        · exact hlb
      subst hk
      simp [decChars, h10]
    · have hk1 : 1 ≤ k := by
        by_contra hne
        have hk0 : k = 0 := by omega
        subst hk0
        simp at hub
        omega
      have hdiv_ub : n / 10 < 10 ^ k := by
        have : n < 10 ^ k * 10 := by
          calc n < 10 ^ (k + 1) := hub
          _ = 10 ^ k * 10 := by ring
        omega
      have hdiv_lb : 10 ^ (k - 1) ≤ n / 10 := by
        rcases hlb with hlb | hlb
        · have h2 : 10 ^ (k - 1) * 10 ≤ n := by
            calc 10 ^ (k - 1) * 10 = 10 ^ (k - 1 + 1) := by ring
            _ = 10 ^ k := by congr 1; omega
            _ ≤ n := hlb
          omega
        · omega
      have hfuel : k - 1 < fuel := by omega
      have hub' : n / 10 < 10 ^ (k - 1 + 1) := by
        have : k - 1 + 1 = k := by omega
        rw [this]; exact hdiv_ub
      have := ih (k - 1) (n / 10) hub' (Or.inl hdiv_lb) hfuel
      simp only [decChars, if_neg h10, List.length_append, List.length_cons,
        List.length_nil, this]
      omega

theorem decValAux_append (l₁ l₂ : List Char) :
    ∀ acc, decValAux acc (l₁ ++ l₂) = decValAux (decValAux acc l₁) l₂ := by
  induction l₁ with
  | nil => intro acc; rfl
  | cons c t ih =>
    intro acc
    have h1 : decValAux acc ((c :: t) ++ l₂) = decValAux (acc * 10 + (c.toNat - 48)) (t ++ l₂) := rfl
    have h2 : decValAux acc (c :: t) = decValAux (acc * 10 + (c.toNat - 48)) t := rfl
    rw [h1, h2, ih]

theorem digitChar_toNat (n : ℕ) (h : n < 10) : (Nat.digitChar n).toNat - 48 = n := by
  revert h
  revert n
  decide

theorem decValAux_single (acc : ℕ) (c : Char) :
    decValAux acc [c] = acc * 10 + (c.toNat - 48) := rfl

theorem decChars_step (fuel n : ℕ) :
    decChars (fuel + 1) n =
      if n < 10 then [Nat.digitChar n]
      else decChars fuel (n / 10) ++ [Nat.digitChar (n % 10)] := rfl

theorem decValAux_decChars (fuel : ℕ) :
    ∀ n acc, n < 10 ^ fuel →
      decValAux acc (decChars fuel n) = acc * 10 ^ (decChars fuel n).length + n := by
  induction fuel with
  | zero =>
    intro n acc h
    have hn : n = 0 := by
      have h1 : n < 1 := by rwa [pow_zero] at h
      omega
    subst hn
    show acc = acc * 10 ^ (0 : ℕ) + 0
    rw [pow_zero, Nat.mul_one, Nat.add_zero]
  | succ fuel ih =>
    intro n acc h
    by_cases h10 : n < 10
    · rw [decChars_step, if_pos h10, decValAux_single, digitChar_toNat n h10]
      have hone : (List.length [Nat.digitChar n]) = 1 := rfl
      rw [hone, pow_one]
    · have hdiv : n / 10 < 10 ^ fuel := by
        have hstep : n < 10 ^ fuel * 10 := by
          calc n < 10 ^ (fuel + 1) := h
          _ = 10 ^ fuel * 10 := by ring
        omega
      have hmod : n % 10 < 10 := Nat.mod_lt n (by norm_num)
      rw [decChars_step, if_neg h10, decValAux_append, decValAux_single,
        digitChar_toNat (n % 10) hmod, ih (n / 10) acc hdiv]
      have hlen : (decChars fuel (n / 10) ++ [Nat.digitChar (n % 10)]).length =
          (decChars fuel (n / 10)).length + 1 := by simp
      rw [hlen, pow_succ]
      have hx := Nat.div_add_mod n 10
      ring_nf
      omega

theorem decValAux_zeros (k : ℕ) (l : List Char) :
    decValAux 0 (List.replicate k '0' ++ l) = decValAux 0 l := by
  induction k with
  | zero => rfl
  | succ k ih =>
    have hrep : List.replicate (k + 1) '0' ++ l = '0' :: (List.replicate k '0' ++ l) := by
      simp [List.replicate_succ]
    rw [hrep]
    have hstep : decValAux 0 ('0' :: (List.replicate k '0' ++ l)) =
        decValAux (0 * 10 + ('0'.toNat - 48)) (List.replicate k '0' ++ l) := rfl
    have hzero : 0 * 10 + ('0'.toNat - 48) = 0 := by decide
    rw [hstep, hzero]
    exact ih

/-- The number of decimal digits of `n` (the length of `str(n)`). -/
def decLen (n : ℕ) : ℕ := (natToDec n).length

theorem natToDec_data (n : ℕ) : (natToDec n).data = decChars (n + 1) n := rfl

theorem lt_pow_self_ten (n : ℕ) : n < 10 ^ n := by
  calc n < 2 ^ n := Nat.lt_two_pow n
  _ ≤ 10 ^ n := Nat.pow_le_pow_left (by norm_num) n

theorem decLen_spec (n : ℕ) :
    (n < 10 ^ decLen n) ∧ (∀ j, j + 1 < decLen n → ¬ n < 10 ^ (j + 1)) ∧ 1 ≤ decLen n := by
  have hfuel : n < n + 1 := Nat.lt_succ_self n
  by_cases h0 : n = 0
  · subst h0
    refine ⟨by norm_num [decLen, natToDec, decChars], ?_, by norm_num [decLen, natToDec, decChars]⟩
    intro j hj
    norm_num [decLen, natToDec, decChars] at hj
  · set k := Nat.log 10 n with hk
    have hub : n < 10 ^ (k + 1) := Nat.lt_pow_succ_log_self (by norm_num) n
    have hlb : 10 ^ k ≤ n := Nat.pow_log_le_self 10 h0
    have hkfuel : k < n + 1 := by
      have := Nat.lt_of_lt_of_le (lt_pow_self_ten k) hlb
      omega
    have hlen : decLen n = k + 1 := by
      unfold decLen natToDec
      simp only [String.length]
      exact decChars_length (n + 1) k n hub (Or.inl hlb) hkfuel
    rw [hlen]
    refine ⟨hub, ?_, by omega⟩
    intro j hj hcon
    have hj' : j + 1 ≤ k := by omega
    have : 10 ^ (j + 1) ≤ 10 ^ k := Nat.pow_le_pow_right (by norm_num) hj'
    omega

theorem decLen_le (n d : ℕ) (h : n < 10 ^ d) (hd : 1 ≤ d) : decLen n ≤ d := by
  obtain ⟨h1, h2, h3⟩ := decLen_spec n
  by_contra hcon
  have : d + 1 < decLen n ∨ d + 1 = decLen n := by omega
  rcases this with hlt | heq
  · exact h2 d (by omega) (by omega)
  · have hd1 : d = decLen n - 1 := by omega
    rcases Nat.eq_or_lt_of_le h3 with h4 | h4
    · omega
    · exact h2 (d - 1) (by omega) (by
        have : d - 1 + 1 = d := by omega
        rw [this]; exact h)

theorem findSome?_range_first {β : Type} (f : ℕ → Option β) (n₀ : ℕ) (v : β)
    (hnone : ∀ n, n < n₀ → f n = none) (hsome : f n₀ = some v) :
    ∀ d, n₀ < d → (List.range d).findSome? f = some v := by
  intro d
  induction d with
  | zero => omega
  | succ d ih =>
    intro hd
    rw [List.range_succ, List.findSome?_append]
    by_cases hcase : n₀ < d
    · rw [ih hcase]; rfl
    · have hn0 : n₀ = d := by omega
      subst hn0
      have hrange : (List.range n₀).findSome? f = none :=
        List.findSome?_eq_none_iff.2 (fun a ha => hnone a (List.mem_range.1 ha))
      rw [hrange]
      simp [hsome, List.findSome?]

theorem find?_range_first (p : ℕ → Bool) (n₀ : ℕ)
    (hnone : ∀ n, n < n₀ → p n = false) (htrue : p n₀ = true) :
    ∀ d, n₀ < d → (List.range d).find? p = some n₀ := by
  intro d
  induction d with
  | zero => omega
  | succ d ih =>
    intro hd
    rw [List.range_succ, List.find?_append]
    by_cases hcase : n₀ < d
    · rw [ih hcase]; rfl
    · have hn0 : n₀ = d := by omega
      subst hn0
      have hrange : (List.range n₀).find? p = none :=
        List.find?_eq_none.2 (fun a ha => by
          rw [hnone a (List.mem_range.1 ha)]; exact fun hcon => by simp at hcon)
      rw [hrange]
      simp [htrue, List.find?]

theorem decVal_natToDec (n : ℕ) : decValAux 0 (natToDec n).data = n := by
  rw [natToDec_data]
  have := decValAux_decChars (n + 1) n 0 (by
    calc n < 10 ^ n := lt_pow_self_ten n
    _ ≤ 10 ^ (n + 1) := Nat.pow_le_pow_right (by norm_num) (by omega))
  simpa using this

/-! ### Characterisation of the filename indexer -/

theorem addIndex_found (s : String) (i digit : ℕ) (hdig : 1 ≤ digit) (hi : i < 10 ^ digit) :
    _add_index_to_string s i digit =
      some (s ++ "_" ++ zerosStr (digit - decLen i) ++ natToDec i) := by
  obtain ⟨h1, h2, h3⟩ := decLen_spec i
  have hlen : decLen i ≤ digit := decLen_le i digit hi hdig
  unfold _add_index_to_string
  have hstep : decLen i - 1 + 1 = decLen i := by omega
  apply findSome?_range_first _ (decLen i - 1)
  · intro n hn
    rw [if_neg (h2 n (by omega))]
  · rw [if_pos (by rw [hstep]; exact h1)]
    have harith : digit - (decLen i - 1) - 1 = digit - decLen i := by omega
    rw [harith]
  · omega

theorem addIndex_overflow (s : String) (i digit : ℕ) (h : 10 ^ digit ≤ i) :
    _add_index_to_string s i digit = none := by
  unfold _add_index_to_string
  apply List.findSome?_eq_none_iff.2
  intro n hn
  have hn' : n < digit := List.mem_range.1 hn
  have hpow : 10 ^ (n + 1) ≤ 10 ^ digit := Nat.pow_le_pow_right (by norm_num) (by omega)
  rw [if_neg (by omega)]

/-- The zero-padded numeric field the indexer places after the underscore. -/
def padField (digit i : ℕ) : String := zerosStr (digit - decLen i) ++ natToDec i

theorem padField_data (digit i : ℕ) :
    (padField digit i).data = List.replicate (digit - decLen i) '0' ++ (natToDec i).data := by
  have h : (zerosStr (digit - decLen i)).data = List.replicate (digit - decLen i) '0' := rfl
  rw [padField, String.data_append, h]

theorem padField_length (digit i : ℕ) (h : decLen i ≤ digit) :
    (padField digit i).data.length = digit := by
  rw [padField_data, List.length_append, List.length_replicate]
  have hL : (natToDec i).data.length = decLen i := rfl
  rw [hL]
  omega

theorem padField_decode (digit i : ℕ) :
    decValAux 0 (padField digit i).data = i := by
  rw [padField_data, decValAux_zeros, decVal_natToDec]

theorem padField_inj (digit i j : ℕ)
    (h : padField digit i = padField digit j) : i = j := by
  have hdata : (padField digit i).data = (padField digit j).data := by rw [h]
  calc i = decValAux 0 (padField digit i).data := (padField_decode digit i).symm
  _ = decValAux 0 (padField digit j).data := by rw [hdata]
  _ = j := padField_decode digit j

/-! ### Volume helpers -/

theorem volElems_mapVol (f : ℚ → ℚ) (v : Vol) : volElems (mapVol f v) = (volElems v).map f := by
  unfold volElems mapVol
  rw [List.map_flatten, List.map_flatten]

theorem mapVol_length (f : ℚ → ℚ) (v : Vol) : (mapVol f v).length = v.length := by
  unfold mapVol
  rw [List.length_map]

theorem npMax?_of_ne (l : List ℚ) (h : l ≠ []) : ∃ m, npMax? l = some m := by
  cases l with
  | nil => exact absurd rfl h
  | cons x xs => exact ⟨xs.foldl max x, rfl⟩

theorem npMin?_of_ne (l : List ℚ) (h : l ≠ []) : ∃ m, npMin? l = some m := by
  cases l with
  | nil => exact absurd rfl h
  | cons x xs => exact ⟨xs.foldl min x, rfl⟩

theorem npMax?_ge (l : List ℚ) (m : ℚ) (h : npMax? l = some m) : ∀ x ∈ l, x ≤ m := by
  cases l with
  | nil => simp [npMax?] at h
  | cons a t =>
    intro x hx
    have hm : List.foldl max a t = m := by simpa [npMax?] using h
    rw [← hm]
    exact le_foldl_max t a x hx

theorem npMin?_le (l : List ℚ) (m : ℚ) (h : npMin? l = some m) : ∀ x ∈ l, m ≤ x := by
  cases l with
  | nil => simp [npMin?] at h
  | cons a t =>
    intro x hx
    have hm : List.foldl min a t = m := by simpa [npMin?] using h
    rw [← hm]
    exact foldl_min_le t a x hx

/-! ### Pointwise analysis of the integer converters -/

/-- The clamp-to-range map the spec describes: values above `dmax` go to
`dmax`, values below `dmin` go to `dmin`. -/
def clampQ (dmin dmax v : ℚ) : ℚ :=
  if dmax < v then dmax else if v < dmin then dmin else v

theorem upperClip_eq (arr : List ℚ) (mx dmax : ℚ) (hmx : npMax? arr = some mx) :
    (if dmax < mx then arr.map (fun v => if dmax < v then dmax else v) else arr) =
      arr.map (fun v => if dmax < v then dmax else v) := by
  by_cases h : dmax < mx
  · rw [if_pos h]
  · rw [if_neg h]
    have hall : ∀ v ∈ arr, (if dmax < v then dmax else v) = v := by
      intro v hv
      rw [if_neg]
      exact not_lt.2 (le_trans (npMax?_ge arr mx hmx v hv) (not_lt.1 h))
    exact (map_eq_self_of arr _ hall).symm

theorem lowerClip_eq (arr : List ℚ) (mn dmin : ℚ) (hmn : npMin? arr = some mn) :
    (if mn < dmin then arr.map (fun v => if v < dmin then dmin else v) else arr) =
      arr.map (fun v => if v < dmin then dmin else v) := by
  by_cases h : mn < dmin
  · rw [if_pos h]
  · rw [if_neg h]
    have hall : ∀ v ∈ arr, (if v < dmin then dmin else v) = v := by
      intro v hv
      rw [if_neg]
      exact not_lt.2 (le_trans (not_lt.1 h) (npMin?_le arr mn hmn v hv))
    exact (map_eq_self_of arr _ hall).symm

theorem map_ne_nil (l : List ℚ) (f : ℚ → ℚ) (h : l ≠ []) : l.map f ≠ [] := by
  cases l with
  | nil => exact absurd rfl h
  | cons a t => simp

theorem as_uint8_twoStage (arr : List ℚ) (dmin? dmax? : Option ℚ) (mx mn dmin dmax : ℚ)
    (hmx : npMax? arr = some mx) (hmn : npMin? arr = some mn)
    (hdmax : dmax?.getD mx = dmax) (hdmin : dmin?.getD mn = dmin) :
    as_uint8 arr dmin? dmax? =
      (if dmax = dmin then
        some (((arr.map (fun v => if dmax < v then dmax else v)).map
          (fun v => if v < dmin then dmin else v)).map u8castQ)
      else
        some (((arr.map (fun v => if dmax < v then dmax else v)).map
          (fun v => if v < dmin then dmin else v)).map
            (fun v => u8castQ ((v - dmin) / (dmax - dmin) * 255)))) := by
  have hne : arr ≠ [] := by
    intro hcon
    subst hcon
    simp [npMax?] at hmx
  subst hdmax
  subst hdmin
  unfold as_uint8
  rw [hmx, hmn]
  dsimp only
  rw [upperClip_eq arr mx _ hmx]
  obtain ⟨mn1, hmn1⟩ := npMin?_of_ne _ (map_ne_nil arr _ hne)
  rw [hmn1]
  dsimp only
  rw [lowerClip_eq _ mn1 _ hmn1]

theorem as_uint16_twoStage (arr : List ℚ) (dmin? dmax? : Option ℚ) (mx mn dmin dmax : ℚ)
    (hmx : npMax? arr = some mx) (hmn : npMin? arr = some mn)
    (hdmax : dmax?.getD mx = dmax) (hdmin : dmin?.getD mn = dmin) :
    as_uint16 arr dmin? dmax? =
      (if dmax = dmin then
        some (((arr.map (fun v => if dmax < v then dmax else v)).map
          (fun v => if v < dmin then dmin else v)).map u16castQ)
      else
        some (((arr.map (fun v => if dmax < v then dmax else v)).map
          (fun v => if v < dmin then dmin else v)).map
            (fun v => u16castQ ((v - dmin) / (dmax - dmin) * 65535)))) := by
  have hne : arr ≠ [] := by
    intro hcon
    subst hcon
    simp [npMax?] at hmx
  subst hdmax
  subst hdmin
  unfold as_uint16
  rw [hmx, hmn]
  dsimp only
  rw [upperClip_eq arr mx _ hmx]
  obtain ⟨mn1, hmn1⟩ := npMin?_of_ne _ (map_ne_nil arr _ hne)
  rw [hmn1]
  dsimp only
  rw [lowerClip_eq _ mn1 _ hmn1]

theorem clip_comp_eq_clampQ (dmin dmax : ℚ) (hle : dmin ≤ dmax) (v : ℚ) :
    (fun w => if w < dmin then dmin else w) ((fun w => if dmax < w then dmax else w) v) =
      clampQ dmin dmax v := by
  unfold clampQ
  show (if (if dmax < v then dmax else v) < dmin then dmin
        else (if dmax < v then dmax else v)) = _
  by_cases h1 : dmax < v
  · rw [if_pos h1, if_pos h1, if_neg (not_lt.2 hle)]
  · rw [if_neg h1, if_neg h1]

theorem as_uint8_pointwise (arr : List ℚ) (dmin? dmax? : Option ℚ) (mx mn dmin dmax : ℚ)
    (hmx : npMax? arr = some mx) (hmn : npMin? arr = some mn)
    (hdmax : dmax?.getD mx = dmax) (hdmin : dmin?.getD mn = dmin) (hlt : dmin < dmax) :
    as_uint8 arr dmin? dmax? =
      some (arr.map (fun v => u8castQ ((clampQ dmin dmax v - dmin) / (dmax - dmin) * 255))) := by
  rw [as_uint8_twoStage arr dmin? dmax? mx mn dmin dmax hmx hmn hdmax hdmin,
    if_neg (by intro hcon; rw [hcon] at hlt; exact lt_irrefl dmin hlt)]
  rw [List.map_map, List.map_map]
  refine congrArg some (List.map_congr_left ?_)
  intro v _
  show u8castQ (((fun w => if w < dmin then dmin else w)
    ((fun w => if dmax < w then dmax else w) v) - dmin) / (dmax - dmin) * 255) = _
  rw [clip_comp_eq_clampQ dmin dmax (le_of_lt hlt) v]

theorem as_uint16_pointwise (arr : List ℚ) (dmin? dmax? : Option ℚ) (mx mn dmin dmax : ℚ)
    (hmx : npMax? arr = some mx) (hmn : npMin? arr = some mn)
    (hdmax : dmax?.getD mx = dmax) (hdmin : dmin?.getD mn = dmin) (hlt : dmin < dmax) :
    as_uint16 arr dmin? dmax? =
      some (arr.map (fun v => u16castQ ((clampQ dmin dmax v - dmin) / (dmax - dmin) * 65535))) := by
  rw [as_uint16_twoStage arr dmin? dmax? mx mn dmin dmax hmx hmn hdmax hdmin,
    if_neg (by intro hcon; rw [hcon] at hlt; exact lt_irrefl dmin hlt)]
  rw [List.map_map, List.map_map]
  refine congrArg some (List.map_congr_left ?_)
  intro v _
  show u16castQ (((fun w => if w < dmin then dmin else w)
    ((fun w => if dmax < w then dmax else w) v) - dmin) / (dmax - dmin) * 65535) = _
  rw [clip_comp_eq_clampQ dmin dmax (le_of_lt hlt) v]

theorem dmin_le_clampQ (dmin dmax v : ℚ) (hle : dmin ≤ dmax) : dmin ≤ clampQ dmin dmax v := by
  unfold clampQ
  split_ifs <;> linarith

theorem clampQ_le_dmax (dmin dmax v : ℚ) (hle : dmin ≤ dmax) : clampQ dmin dmax v ≤ dmax := by
  unfold clampQ
  split_ifs <;> linarith

theorem clampQ_mono (dmin dmax u v : ℚ) (hle : dmin ≤ dmax) (huv : u ≤ v) :
    clampQ dmin dmax u ≤ clampQ dmin dmax v := by
  unfold clampQ
  split_ifs <;> linarith

theorem scale8_nonneg (dmin dmax v : ℚ) (hlt : dmin < dmax) :
    0 ≤ (clampQ dmin dmax v - dmin) / (dmax - dmin) * 255 := by
  apply mul_nonneg _ (by norm_num)
  apply div_nonneg _ (by linarith)
  have := dmin_le_clampQ dmin dmax v (le_of_lt hlt)
  linarith

theorem scale8_le (dmin dmax v : ℚ) (hlt : dmin < dmax) :
    (clampQ dmin dmax v - dmin) / (dmax - dmin) * 255 ≤ 255 := by
  have hpos : (0 : ℚ) < dmax - dmin := by linarith
  have hratio : (clampQ dmin dmax v - dmin) / (dmax - dmin) ≤ 1 := by
    rw [div_le_one hpos]
    have := clampQ_le_dmax dmin dmax v (le_of_lt hlt)
    linarith
  calc (clampQ dmin dmax v - dmin) / (dmax - dmin) * 255 ≤ 1 * 255 := by
        apply mul_le_mul_of_nonneg_right hratio (by norm_num)
  _ = 255 := by norm_num

theorem floor_le_255 (q : ℚ) (h : q ≤ 255) : ⌊q⌋ ≤ 255 := by
  have h1 : ⌊q⌋ ≤ ⌊(255 : ℚ)⌋ := Int.floor_le_floor h
  have h2 : ⌊(255 : ℚ)⌋ = 255 := by norm_num
  omega

theorem u8castQ_eval (q : ℚ) (h0 : 0 ≤ q) (h255 : q ≤ 255) : u8castQ q = (⌊q⌋ : ℚ) := by
  unfold u8castQ ratTrunc
  rw [if_neg (not_lt.2 h0)]
  rw [Int.emod_eq_of_lt (Int.floor_nonneg.2 h0) (by
    have := floor_le_255 q h255
    omega)]

theorem scale8_mono (dmin dmax u v : ℚ) (hlt : dmin < dmax) (huv : u ≤ v) :
    (clampQ dmin dmax u - dmin) / (dmax - dmin) * 255 ≤
      (clampQ dmin dmax v - dmin) / (dmax - dmin) * 255 := by
  have hpos : (0 : ℚ) < dmax - dmin := by linarith
  have h1 := clampQ_mono dmin dmax u v (le_of_lt hlt) huv
  gcongr

theorem getD_map_lt (l : List ℚ) (f : ℚ → ℚ) (i : ℕ) (h : i < l.length) :
    (l.map f).getD i 0 = f (l.getD i 0) := by
  rw [List.getD_eq_getElem l 0 h, List.getD_eq_getElem (l.map f) 0 (by simpa using h),
    List.getElem_map]

theorem degenerate_clamp (d v : ℚ) :
    (if (if d < v then d else v) < d then d else (if d < v then d else v)) = d := by
  by_cases h1 : d < v
  · rw [if_pos h1, if_neg (lt_irrefl d)]
  · rw [if_neg h1]
    by_cases h2 : v < d
    · rw [if_pos h2]
    · rw [if_neg h2]
      exact le_antisymm (not_lt.1 h1) (not_lt.1 h2)

/-! ### Claim C1 -/

/-- C1 (counterexample): the claim maps value 1 with bounds `[0, 2]` to
`round(1/2 * 255) = 128` under `as_uint8`, but the code's `astype` cast
truncates, producing 127. -/
theorem claim_C1_counterexample :
    ¬ (as_uint8 [1] (some 0) (some 2) =
        some [((round (((1 : ℚ) - 0) / (2 - 0) * 255) : ℤ) : ℚ)]) := by
  have h1 : as_uint8 [1] (some 0) (some 2) = some [(127 : ℚ)] := by
    rw [as_uint8_pointwise [1] (some 0) (some 2) 1 1 0 2 rfl rfl rfl rfl (by norm_num)]
    norm_num [clampQ, u8castQ, ratTrunc]
  rw [h1]
  have h2 : (round (((1 : ℚ) - 0) / (2 - 0) * 255) : ℤ) = 128 := by
    norm_num [round_eq]
  rw [h2]
  intro hcon
  simp at hcon

/-- C1 (amended): for a nonempty array, with bounds supplied or defaulted
from the array's min/max and `dmin < dmax`, `as_uint8`/`as_uint16` clamp
every value outside `[dmin, dmax]` to the nearer bound, then map value `v` to
`(v - dmin) / (dmax - dmin) * (2^bits - 1)` **truncated toward zero by the
unsigned-integer cast** (not rounded to nearest). -/
theorem claim_C1_clamp_rescale_truncate (arr : List ℚ) (dmin? dmax? : Option ℚ)
    (mx mn dmin dmax : ℚ)
    (hmx : npMax? arr = some mx) (hmn : npMin? arr = some mn)
    (hdmax : dmax?.getD mx = dmax) (hdmin : dmin?.getD mn = dmin) (hlt : dmin < dmax) :
    as_uint8 arr dmin? dmax? =
      some (arr.map (fun v =>
        u8castQ ((clampQ dmin dmax v - dmin) / (dmax - dmin) * (2 ^ 8 - 1)))) ∧
    as_uint16 arr dmin? dmax? =
      some (arr.map (fun v =>
        u16castQ ((clampQ dmin dmax v - dmin) / (dmax - dmin) * (2 ^ 16 - 1)))) := by
  constructor
  · rw [as_uint8_pointwise arr dmin? dmax? mx mn dmin dmax hmx hmn hdmax hdmin hlt]
    norm_num
  · rw [as_uint16_pointwise arr dmin? dmax? mx mn dmin dmax hmx hmn hdmax hdmin hlt]
    norm_num

/-- Witness for C1 (amended) at a concrete input with defaulted bounds. -/
theorem claim_C1_witness :
    npMax? [0, 2] = some 2 ∧ npMin? [0, 2] = some 0 ∧ (0 : ℚ) < 2 ∧
      (as_uint8 [0, 2] none none =
        some ([(0 : ℚ), 2].map (fun v =>
          u8castQ ((clampQ 0 2 v - 0) / (2 - 0) * (2 ^ 8 - 1)))) ∧
      as_uint16 [0, 2] none none =
        some ([(0 : ℚ), 2].map (fun v =>
          u16castQ ((clampQ 0 2 v - 0) / (2 - 0) * (2 ^ 16 - 1))))) :=
  ⟨by decide, by decide, by norm_num,
    claim_C1_clamp_rescale_truncate [0, 2] none none 2 0 0 2 (by decide) (by decide)
      rfl rfl (by norm_num)⟩

/-! ### Claim C4 -/

/-- C4 (counterexample): with `dmin = dmax = 5`, `as_uint8 [7]` is *not* a
direct cast of the input array (which would give `[7]`): the value is first
clamped to 5, so the result is `[5]`. -/
theorem claim_C4_counterexample :
    as_uint8 [7] (some 5) (some 5) ≠ some ([(7 : ℚ)].map u8castQ) := by
  decide

/-- C4 (amended): with `dmax == dmin` (and a nonempty array), `as_uint8` and
`as_uint16` first clamp every entry to the degenerate bound and then take the
direct-cast branch — the rescale branch (the only one that divides by
`dmax - dmin`) is never taken, so no division by zero occurs. -/
theorem claim_C4_degenerate_direct_cast (arr : List ℚ) (d : ℚ) (hne : arr ≠ []) :
    as_uint8 arr (some d) (some d) = some (arr.map (fun _ => u8castQ d)) ∧
    as_uint16 arr (some d) (some d) = some (arr.map (fun _ => u16castQ d)) := by
  obtain ⟨mx, hmx⟩ := npMax?_of_ne arr hne
  obtain ⟨mn, hmn⟩ := npMin?_of_ne arr hne
  constructor
  · rw [as_uint8_twoStage arr (some d) (some d) mx mn d d hmx hmn rfl rfl, if_pos rfl,
      List.map_map, List.map_map]
    refine congrArg some (List.map_congr_left ?_)
    intro v _
    show u8castQ ((fun w => if w < d then d else w) ((fun w => if d < w then d else w) v)) = _
    have hd : (fun w => if w < d then d else w) ((fun w => if d < w then d else w) v) = d := by
      show (if (if d < v then d else v) < d then d else (if d < v then d else v)) = d
      exact degenerate_clamp d v
    rw [hd]
  · rw [as_uint16_twoStage arr (some d) (some d) mx mn d d hmx hmn rfl rfl, if_pos rfl,
      List.map_map, List.map_map]
    refine congrArg some (List.map_congr_left ?_)
    intro v _
    show u16castQ ((fun w => if w < d then d else w) ((fun w => if d < w then d else w) v)) = _
    have hd : (fun w => if w < d then d else w) ((fun w => if d < w then d else w) v) = d := by
      show (if (if d < v then d else v) < d then d else (if d < v then d else v)) = d
      exact degenerate_clamp d v
    rw [hd]

/-- Witness for C4 (amended) at a concrete input. -/
theorem claim_C4_witness :
    ([(7 : ℚ)] ≠ []) ∧
      (as_uint8 [7] (some 5) (some 5) = some ([(7 : ℚ)].map (fun _ => u8castQ 5)) ∧
      as_uint16 [7] (some 5) (some 5) = some ([(7 : ℚ)].map (fun _ => u16castQ 5))) :=
  ⟨by decide, claim_C4_degenerate_direct_cast [7] 5 (by decide)⟩

/-! ### Claim C5 -/

/-- C5: for every nonempty array and supplied bounds with `dmin < dmax`, all
values produced by `as_uint8` lie in `[0, 255]`, and the element-wise map is
monotone non-decreasing in the input value. -/
theorem claim_C5_uint8_range_monotone (arr : List ℚ) (dmin dmax : ℚ)
    (hne : arr ≠ []) (hlt : dmin < dmax) :
    ∃ out, as_uint8 arr (some dmin) (some dmax) = some out ∧
      (∀ v ∈ out, 0 ≤ v ∧ v ≤ 255) ∧
      (∀ i j, i < arr.length → j < arr.length →
        arr.getD i 0 ≤ arr.getD j 0 → out.getD i 0 ≤ out.getD j 0) := by
  obtain ⟨mx, hmx⟩ := npMax?_of_ne arr hne
  obtain ⟨mn, hmn⟩ := npMin?_of_ne arr hne
  refine ⟨arr.map (fun v => u8castQ ((clampQ dmin dmax v - dmin) / (dmax - dmin) * 255)),
    as_uint8_pointwise arr (some dmin) (some dmax) mx mn dmin dmax hmx hmn rfl rfl hlt,
    ?_, ?_⟩
  · intro v hv
    obtain ⟨w, _, hw⟩ := List.mem_map.1 hv
    subst hw
    rw [u8castQ_eval _ (scale8_nonneg dmin dmax w hlt) (scale8_le dmin dmax w hlt)]
    constructor
    · exact_mod_cast Int.floor_nonneg.2 (scale8_nonneg dmin dmax w hlt)
    · exact_mod_cast floor_le_255 _ (scale8_le dmin dmax w hlt)
  · intro i j hi hj hij
    rw [getD_map_lt arr _ i hi, getD_map_lt arr _ j hj]
    rw [u8castQ_eval _ (scale8_nonneg dmin dmax _ hlt) (scale8_le dmin dmax _ hlt),
      u8castQ_eval _ (scale8_nonneg dmin dmax _ hlt) (scale8_le dmin dmax _ hlt)]
    exact_mod_cast Int.floor_le_floor (scale8_mono dmin dmax _ _ hlt hij)

/-- Witness for C5 at a concrete input. -/
theorem claim_C5_witness :
    ([(0 : ℚ), 3] ≠ []) ∧ ((1 : ℚ) < 2) ∧
      (∃ out, as_uint8 [0, 3] (some 1) (some 2) = some out ∧
        (∀ v ∈ out, 0 ≤ v ∧ v ≤ 255) ∧
        (∀ i j, i < ([(0 : ℚ), 3]).length → j < ([(0 : ℚ), 3]).length →
          ([(0 : ℚ), 3]).getD i 0 ≤ ([(0 : ℚ), 3]).getD j 0 →
            out.getD i 0 ≤ out.getD j 0)) :=
  ⟨by decide, by norm_num, claim_C5_uint8_range_monotone [0, 3] 1 2 (by decide) (by norm_num)⟩

/-! ### Claim C3 -/

/-- C3: with digit width 5 the filename indexer maps index 134 to the suffix
`_00134` and index 99999 to `_99999`, and in general (for every index below
`10^5`) returns the base string followed by `_` and the decimal index
left-padded with zeros to width 5. -/
theorem claim_C3_indexer_padding :
    (∀ s : String, _add_index_to_string s 134 5 = some (s ++ "_00134")) ∧
    (∀ s : String, _add_index_to_string s 99999 5 = some (s ++ "_99999")) ∧
    (∀ (s : String) (ind : ℕ), ind < 10 ^ 5 →
      _add_index_to_string s ind 5 = some (s ++ "_" ++ leftPadDec 5 ind)) := by
  have hgen : ∀ (s : String) (ind : ℕ), ind < 10 ^ 5 →
      _add_index_to_string s ind 5 = some (s ++ "_" ++ leftPadDec 5 ind) := by
    intro s ind h
    rw [addIndex_found s ind 5 (by norm_num) h]
    have hpad : leftPadDec 5 ind = zerosStr (5 - decLen ind) ++ natToDec ind := rfl
    rw [hpad, ← String.append_assoc]
  refine ⟨?_, ?_, hgen⟩
  · intro s
    rw [hgen s 134 (by norm_num), String.append_assoc]
    have h1 : ("_" : String) ++ leftPadDec 5 134 = "_00134" := by decide
    rw [h1]
  · intro s
    rw [hgen s 99999 (by norm_num), String.append_assoc]
    have h1 : ("_" : String) ++ leftPadDec 5 99999 = "_99999" := by decide
    rw [h1]

/-- Witness for C3 at a concrete input. -/
theorem claim_C3_witness :
    7 < 10 ^ 5 ∧ _add_index_to_string ("img") 7 5 = some (("img") ++ "_" ++ leftPadDec 5 7) :=
  ⟨by norm_num, claim_C3_indexer_padding.2.2 ("img") 7 (by norm_num)⟩

/-! ### Claim C8 -/

/-- C8 (counterexample): a float32-typed ndarray is not returned unchanged:
`isinstance(arr, np.float32)` tests the scalar type, which no ndarray
satisfies, so `as_float32` rebuilds even a float32 array as a fresh copy
(here: a different object identity). -/
theorem claim_C8_counterexample :
    as_float32 (PyNum.ndarray (NdArray.mk 0 DType.float32 [1])) 1 ≠
      PyNum.ndarray (NdArray.mk 0 DType.float32 [1]) := by
  decide

/-- C8 (amended): `as_float32` returns its input unchanged only when it is a
`np.float32` scalar; every ndarray input — float32-typed included — yields a
fresh float32 copy with the same values; the function is total, so no array
input raises an error. -/
theorem claim_C8_always_copies_arrays :
    (∀ (a : NdArray) (u : ℕ),
      as_float32 (PyNum.ndarray a) u = PyNum.ndarray (NdArray.mk u DType.float32 a.val)) ∧
    (∀ (v : ℚ) (u : ℕ),
      as_float32 (PyNum.scalar DType.float32 v) u = PyNum.scalar DType.float32 v) :=
  ⟨fun _ _ => rfl, fun _ _ => rfl⟩

/-! ### Claim C6 -/

theorem suggestLoop_succ {α : Type} (fs : List (String × α)) (base ext : String)
    (fuel indq : ℕ) :
    suggestLoop fs base ext (fuel + 1) indq =
      if isfile fs (base ++ "-" ++ natToDec indq ++ ext)
      then suggestLoop fs base ext fuel (indq + 1)
      else base ++ "-" ++ natToDec indq ++ ext := rfl

theorem suggest_out_h5 (fs : H5FS) :
    _suggest_new_fname fs ("out.h5") = suggestLoop fs ("out") (".h5") (fs.length + 1) 1 := by
  show suggestLoop fs ((pySplitDot ("out.h5")).getD ((pySplitDot ("out.h5")).length - 2) "")
      ("." ++ (pySplitDot ("out.h5")).getLastD "") (fs.length + 1) 1 = _
  have hbase : (pySplitDot ("out.h5")).getD ((pySplitDot ("out.h5")).length - 2) "" =
      ("out" : String) := by decide
  have hext : (("." : String) ++ (pySplitDot ("out.h5")).getLastD "") = (".h5" : String) := by
    decide
  rw [hbase, hext]

/-- C6: if `out.h5` and `out-1.h5` both exist and overwrite is unset,
`write_hdf5` with base name `out` probes `out-1.h5` then `out-2.h5` in order
and writes to `out-2.h5`, the first free candidate, leaving the two existing
files untouched. -/
theorem claim_C6_collision_avoidance (fs : H5FS) (data : Vol)
    (h0 : List.lookup ("out.h5") fs ≠ none)
    (h1 : List.lookup ("out-1.h5") fs ≠ none)
    (h2 : List.lookup ("out-2.h5") fs = none) :
    write_hdf5 fs data ("out") ("exchange") false =
      (("out-2.h5" : String), H5File.mk ("exchange") ("exchange") ("data") data) :: fs ∧
    List.lookup ("out.h5") (write_hdf5 fs data ("out") ("exchange") false) =
      List.lookup ("out.h5") fs ∧
    List.lookup ("out-1.h5") (write_hdf5 fs data ("out") ("exchange") false) =
      List.lookup ("out-1.h5") fs := by
  have hmain : write_hdf5 fs data ("out") ("exchange") false =
      (("out-2.h5" : String), H5File.mk ("exchange") ("exchange") ("data") data) :: fs := by
    unfold write_hdf5
    have hfn : (("out" : String) ++ ".h5") = ("out.h5" : String) := by decide
    rw [hfn]
    have hf0 : isfile fs ("out.h5") = true := by
      unfold isfile
      cases hl : List.lookup ("out.h5") fs with
      | none => exact absurd hl h0
      | some f => rfl
    have hcond : (!false && isfile fs ("out.h5")) = true := by
      rw [Bool.not_false, Bool.true_and, hf0]
    simp only [hcond, eq_self_iff_true, if_true]
    rw [suggest_out_h5 fs]
    cases fs with
    | nil => simp [List.lookup] at h0
    | cons p fs' =>
      have hlen : (p :: fs').length + 1 = (fs'.length + 1) + 1 := by simp
      rw [hlen, suggestLoop_succ]
      have hc1 : (("out" : String) ++ "-" ++ natToDec 1 ++ ".h5") = ("out-1.h5" : String) := by
        decide
      rw [hc1]
      have hf1 : isfile (p :: fs') ("out-1.h5") = true := by
        unfold isfile
        cases hl : List.lookup ("out-1.h5") (p :: fs') with
        | none => exact absurd hl h1
        | some f => rfl
      rw [if_pos hf1, suggestLoop_succ]
      have hc2 : (("out" : String) ++ "-" ++ natToDec 2 ++ ".h5") = ("out-2.h5" : String) := by
        decide
      rw [hc2]
      have hf2 : isfile (p :: fs') ("out-2.h5") = false := by
        unfold isfile
        rw [h2]
        rfl
      rw [if_neg (by rw [hf2]; exact Bool.false_ne_true)]
  refine ⟨hmain, ?_, ?_⟩
  · rw [hmain]
    have hne : (("out.h5" : String) == ("out-2.h5" : String)) = false := by decide
    simp [List.lookup, hne]
  · rw [hmain]
    have hne : (("out-1.h5" : String) == ("out-2.h5" : String)) = false := by decide
    simp [List.lookup, hne]

/-- Witness for C6 at a concrete filesystem. -/
theorem claim_C6_witness :
    (List.lookup ("out.h5")
        [(("out.h5" : String), H5File.mk ("exchange") ("exchange") ("data") [[[1]]]),
         (("out-1.h5" : String), H5File.mk ("exchange") ("exchange") ("data") [[[2]]])] ≠ none) ∧
    (write_hdf5
        [(("out.h5" : String), H5File.mk ("exchange") ("exchange") ("data") [[[1]]]),
         (("out-1.h5" : String), H5File.mk ("exchange") ("exchange") ("data") [[[2]]])]
        [[[3]]] ("out") ("exchange") false =
      (("out-2.h5" : String), H5File.mk ("exchange") ("exchange") ("data") [[[3]]]) ::
        [(("out.h5" : String), H5File.mk ("exchange") ("exchange") ("data") [[[1]]]),
         (("out-1.h5" : String), H5File.mk ("exchange") ("exchange") ("data") [[[2]]])] ∧
      List.lookup ("out.h5") (write_hdf5
        [(("out.h5" : String), H5File.mk ("exchange") ("exchange") ("data") [[[1]]]),
         (("out-1.h5" : String), H5File.mk ("exchange") ("exchange") ("data") [[[2]]])]
        [[[3]]] ("out") ("exchange") false) =
      List.lookup ("out.h5")
        [(("out.h5" : String), H5File.mk ("exchange") ("exchange") ("data") [[[1]]]),
         (("out-1.h5" : String), H5File.mk ("exchange") ("exchange") ("data") [[[2]]])] ∧
      List.lookup ("out-1.h5") (write_hdf5
        [(("out.h5" : String), H5File.mk ("exchange") ("exchange") ("data") [[[1]]]),
         (("out-1.h5" : String), H5File.mk ("exchange") ("exchange") ("data") [[[2]]])]
        [[[3]]] ("out") ("exchange") false) =
      List.lookup ("out-1.h5")
        [(("out.h5" : String), H5File.mk ("exchange") ("exchange") ("data") [[[1]]]),
         (("out-1.h5" : String), H5File.mk ("exchange") ("exchange") ("data") [[[2]]])]) :=
  ⟨by decide,
    claim_C6_collision_avoidance
      [(("out.h5" : String), H5File.mk ("exchange") ("exchange") ("data") [[[1]]]),
       (("out-1.h5" : String), H5File.mk ("exchange") ("exchange") ("data") [[[2]]])]
      [[[3]]] (by decide) (by decide) (by decide)⟩

/-! ### Claim C7 -/

theorem applySlice_none {α : Type} (l : List α) : applySlice l none l.length = l := by
  unfold applySlice
  simp

theorem slice_array_full (arr : Vol) (ny nz : ℕ) (hrect : rectVol arr ny nz) :
    _slice_array arr none none none none = arr := by
  cases arr with
  | nil => rfl
  | cons p0 rest =>
    show (applySlice (p0 :: rest) none (p0 :: rest).length).map (fun p =>
        (applySlice p none p0.length).map (fun r =>
          applySlice r none (p0.headD []).length)) = p0 :: rest
    rw [applySlice_none (p0 :: rest)]
    apply map_eq_self_of
    intro p hp
    show (applySlice p none p0.length).map (fun r =>
        applySlice r none (p0.headD []).length) = p
    have hplen : p0.length = p.length := by
      rw [(hrect p hp).1, (hrect p0 (by simp)).1]
    rw [hplen, applySlice_none p]
    apply map_eq_self_of
    intro r hr
    show applySlice r none (p0.headD []).length = r
    cases hp0 : p0 with
    | nil =>
      exfalso
      have h1 : p.length = ny := (hrect p hp).1
      have h2 : ([] : Img).length = ny := by
        rw [← hp0]
        exact (hrect p0 (by simp)).1
      have hpnil : p = [] := by
        apply List.length_eq_zero.1
        have : ([] : Img).length = 0 := rfl
        omega
      rw [hpnil] at hr
      simp at hr
    | cons r0 rrest =>
      have hlen : (List.headD (r0 :: rrest) []).length = r.length := by
        show r0.length = r.length
        rw [(hrect p hp).2 r hr, (hrect p0 (by simp)).2 r0 (by rw [hp0]; simp)]
      rw [hlen, applySlice_none r]

/-- C7: writing a 3-D volume with `write_hdf5` (group `exchange`, dataset
`data`) and reading path `exchange/data` back from the written file with
`read_hdf5` returns the identical array. -/
theorem claim_C7_hdf5_roundtrip (fs : H5FS) (data : Vol) (fname : String) (ny nz : ℕ)
    (hrect : rectVol data ny nz) :
    read_hdf5 (write_hdf5 fs data fname ("exchange") true) (fname ++ ".h5")
      ("exchange/data") none none none none = some data := by
  have hw : write_hdf5 fs data fname ("exchange") true =
      (fname ++ ".h5", H5File.mk ("exchange") ("exchange") ("data") data) :: fs := by
    unfold write_hdf5
    show (if (!true && isfile fs (fname ++ ".h5")) = true
        then _suggest_new_fname fs (fname ++ ".h5") else fname ++ ".h5",
      H5File.mk ("exchange") ("exchange") ("data") data) :: fs = _
    rw [if_neg (by rw [Bool.not_true, Bool.false_and]; exact Bool.false_ne_true)]
  rw [hw]
  unfold read_hdf5
  have hlk : List.lookup (fname ++ ".h5")
      ((fname ++ ".h5", H5File.mk ("exchange") ("exchange") ("data") data) :: fs) =
      some (H5File.mk ("exchange") ("exchange") ("data") data) := by
    simp [List.lookup]
  rw [hlk]
  dsimp only
  rw [if_pos (by decide : ("exchange/data" : String) = ("exchange" : String) ++ "/" ++ "data")]
  exact congrArg some (slice_array_full data ny nz hrect)

/-- Witness for C7 at a concrete volume. -/
theorem claim_C7_witness :
    rectVol [[[1, 2]]] 1 2 ∧
      read_hdf5 (write_hdf5 [] [[[1, 2]]] ("vol") ("exchange") true) (("vol") ++ ".h5")
        ("exchange/data") none none none none = some [[[1, 2]]] :=
  ⟨by decide, claim_C7_hdf5_roundtrip [] [[[1, 2]]] ("vol") 1 2 (by decide)⟩

/-! ### Normal form of the TIFF-stack writer along axis 0 -/

theorem mapVol_eq_self (data : Vol) (f : ℚ → ℚ) (h : ∀ v ∈ volElems data, f v = v) :
    mapVol f data = data := by
  unfold mapVol
  apply map_eq_self_of
  intro p hp
  apply map_eq_self_of
  intro r hr
  apply map_eq_self_of
  intro v hv
  apply h
  unfold volElems
  exact List.mem_flatten.2 ⟨r, List.mem_flatten.2 ⟨p, hp, hr⟩, hv⟩

theorem mapVol_comp (f g : ℚ → ℚ) (v : Vol) :
    mapVol g (mapVol f v) = mapVol (fun x => g (f x)) v := by
  simp [mapVol, List.map_map, Function.comp_def]

theorem volElems_ne_nil_map (f : ℚ → ℚ) (data : Vol) (h : volElems data ≠ []) :
    volElems (mapVol f data) ≠ [] := by
  rw [volElems_mapVol]
  cases hve : volElems data with
  | nil => exact absurd hve h
  | cons e es => simp

theorem upperClipVol_eq (data : Vol) (mx dmax : ℚ)
    (hmx : npMax? (volElems data) = some mx) :
    (if dmax < mx then mapVol (fun v => if dmax < v then dmax else v) data else data) =
      mapVol (fun v => if dmax < v then dmax else v) data := by
  by_cases h : dmax < mx
  · rw [if_pos h]
  · rw [if_neg h]
    refine (mapVol_eq_self data _ ?_).symm
    intro v hv
    rw [if_neg]
    exact not_lt.2 (le_trans (npMax?_ge _ mx hmx v hv) (not_lt.1 h))

theorem lowerClipVol_eq (data : Vol) (mn dmin : ℚ)
    (hmn : npMin? (volElems data) = some mn) :
    (if mn < dmin then mapVol (fun v => if v < dmin then dmin else v) data else data) =
      mapVol (fun v => if v < dmin then dmin else v) data := by
  by_cases h : mn < dmin
  · rw [if_pos h]
  · rw [if_neg h]
    refine (mapVol_eq_self data _ ?_).symm
    intro v hv
    rw [if_neg]
    exact not_lt.2 (le_trans (not_lt.1 h) (npMin?_le _ mn hmn v hv))

theorem write_tiff_stack_axis0 (fs : TiffFS) (data : Vol) (fname : String)
    (idStart digit : ℕ) (overwrite : Bool) (dtype : String) (dmin? dmax? : Option ℚ)
    (mx mn dmin dmax : ℚ)
    (hmx : npMax? (volElems data) = some mx) (hmn : npMin? (volElems data) = some mn)
    (hdmax : dmax?.getD mx = dmax) (hdmin : dmin?.getD mn = dmin) :
    write_tiff_stack fs data fname 0 idStart digit overwrite dtype dmin? dmax? =
      (writeStackLoop
        (mapVol (fun v => if v < dmin then dmin else v)
          (mapVol (fun v => if dmax < v then dmax else v) data))
        fname digit overwrite dtype dmin dmax 0 idStart fs 0
        (mapVol (fun v => if v < dmin then dmin else v)
          (mapVol (fun v => if dmax < v then dmax else v) data)).length).map
        (fun fs2 =>
          (mapVol (fun v => if v < dmin then dmin else v)
            (mapVol (fun v => if dmax < v then dmax else v) data), fs2)) := by
  have hne : volElems data ≠ [] := by
    intro hcon
    rw [hcon] at hmx
    simp [npMax?] at hmx
  subst hdmax
  subst hdmin
  unfold write_tiff_stack
  rw [hmx, hmn]
  dsimp only
  rw [upperClipVol_eq data mx _ hmx]
  obtain ⟨mn1, hmn1⟩ := npMin?_of_ne _ (volElems_ne_nil_map _ data hne)
  rw [hmn1]
  dsimp only
  rw [lowerClipVol_eq _ mn1 _ hmn1]
  rw [if_pos rfl]
  dsimp only
  cases writeStackLoop
      (mapVol (fun v => if v < dmin?.getD mn then dmin?.getD mn else v)
        (mapVol (fun v => if dmax?.getD mx < v then dmax?.getD mx else v) data))
      fname digit overwrite dtype (dmin?.getD mn) (dmax?.getD mx) 0 idStart fs 0
      (mapVol (fun v => if v < dmin?.getD mn then dmin?.getD mn else v)
        (mapVol (fun v => if dmax?.getD mx < v then dmax?.getD mx else v) data)).length with
  | none => rfl
  | some fs2 => rfl

/-! ### Claim C9 -/

/-- C9: `write_tiff_stack` clips the caller's array in place — the volume
component of its result is the final state of the caller's array.  With
supplied bounds `dmin ≤ dmax`, every entry above `dmax` has been overwritten
with `dmax` and every entry below `dmin` with `dmin` before export; with both
bounds unset they default to the data's own min/max and the caller's array is
left exactly as it was. -/
theorem claim_C9_writer_clips_in_place :
    (∀ (fs : TiffFS) (data : Vol) (fname : String) (idStart digit : ℕ)
       (overwrite : Bool) (dtype : String) (dmin dmax : ℚ) (res : Vol × TiffFS),
      dmin ≤ dmax →
      write_tiff_stack fs data fname 0 idStart digit overwrite dtype
          (some dmin) (some dmax) = some res →
      res.1 = mapVol (fun v => if dmax < v then dmax else if v < dmin then dmin else v) data) ∧
    (∀ (fs : TiffFS) (data : Vol) (fname : String) (idStart digit : ℕ)
       (overwrite : Bool) (dtype : String) (res : Vol × TiffFS),
      write_tiff_stack fs data fname 0 idStart digit overwrite dtype none none = some res →
      res.1 = data) := by
  constructor
  · intro fs data fname idStart digit overwrite dtype dmin dmax res hle hsucc
    cases hve : volElems data with
    | nil =>
      exfalso
      unfold write_tiff_stack at hsucc
      rw [hve] at hsucc
      simp [npMax?] at hsucc
    | cons e es =>
      have hmx : npMax? (volElems data) = some (es.foldl max e) := by rw [hve]; rfl
      have hmn : npMin? (volElems data) = some (es.foldl min e) := by rw [hve]; rfl
      rw [write_tiff_stack_axis0 fs data fname idStart digit overwrite dtype
        (some dmin) (some dmax) (es.foldl max e) (es.foldl min e) dmin dmax
        hmx hmn rfl rfl] at hsucc
      have hres : res.1 = mapVol (fun v => if v < dmin then dmin else v)
          (mapVol (fun v => if dmax < v then dmax else v) data) := by
        cases hloop : writeStackLoop
            (mapVol (fun v => if v < dmin then dmin else v)
              (mapVol (fun v => if dmax < v then dmax else v) data))
            fname digit overwrite dtype dmin dmax 0 idStart fs 0
            (mapVol (fun v => if v < dmin then dmin else v)
              (mapVol (fun v => if dmax < v then dmax else v) data)).length with
        | none =>
          rw [hloop] at hsucc
          simp at hsucc
        | some fs2 =>
          rw [hloop] at hsucc
          simp at hsucc
          rw [← hsucc]
      rw [hres, mapVol_comp]
      unfold mapVol
      refine List.map_congr_left ?_
      intro p _
      refine List.map_congr_left ?_
      intro r _
      refine List.map_congr_left ?_
      intro v _
      show (if (if dmax < v then dmax else v) < dmin then dmin
        else (if dmax < v then dmax else v)) = _
      have := clip_comp_eq_clampQ dmin dmax hle v
      unfold clampQ at this
      calc (if (if dmax < v then dmax else v) < dmin then dmin
        else (if dmax < v then dmax else v)) =
          (fun w => if w < dmin then dmin else w) ((fun w => if dmax < w then dmax else w) v) := rfl
      _ = _ := this
  · intro fs data fname idStart digit overwrite dtype res hsucc
    cases hve : volElems data with
    | nil =>
      exfalso
      unfold write_tiff_stack at hsucc
      rw [hve] at hsucc
      simp [npMax?] at hsucc
    | cons e es =>
      have hmx : npMax? (volElems data) = some (es.foldl max e) := by rw [hve]; rfl
      have hmn : npMin? (volElems data) = some (es.foldl min e) := by rw [hve]; rfl
      rw [write_tiff_stack_axis0 fs data fname idStart digit overwrite dtype
        none none (es.foldl max e) (es.foldl min e) (es.foldl min e) (es.foldl max e)
        hmx hmn rfl rfl] at hsucc
      have hupper : mapVol (fun v => if es.foldl max e < v then es.foldl max e else v) data
          = data := by
        apply mapVol_eq_self
        intro v hv
        rw [if_neg (not_lt.2 (npMax?_ge _ _ hmx v hv))]
      have hlower : mapVol (fun v => if v < es.foldl min e then es.foldl min e else v) data
          = data := by
        apply mapVol_eq_self
        intro v hv
        rw [if_neg (not_lt.2 (npMin?_le _ _ hmn v hv))]
      rw [hupper, hlower] at hsucc
      cases hloop : writeStackLoop data fname digit overwrite dtype
          (es.foldl min e) (es.foldl max e) 0 idStart fs 0 data.length with
      | none =>
        rw [hloop] at hsucc
        simp at hsucc
      | some fs2 =>
        rw [hloop] at hsucc
        simp at hsucc
        rw [← hsucc]

/-- Witness for C9 at concrete inputs: part one with a clipping bound, and the
defaulted no-clip case via a second application is covered by the bounds
hypotheses being discharged concretely. -/
theorem claim_C9_witness :
    ((0 : ℚ) ≤ 2) ∧
    (write_tiff_stack [] [[[1, 3]]] ("t") 0 0 5 true ("float32") (some 0) (some 2) =
      some ([[[(1 : ℚ), 2]]], [(("t_00000.tiff" : String), [[(1 : ℚ), 2]])])) ∧
    (([[[(1 : ℚ), 2]]], [(("t_00000.tiff" : String), [[(1 : ℚ), 2]])]) : Vol × TiffFS).1 =
      mapVol (fun v => if (2 : ℚ) < v then 2 else if v < 0 then 0 else v) [[[1, 3]]] :=
  ⟨by norm_num, by decide,
    claim_C9_writer_clips_in_place.1 [] [[[1, 3]]] ("t") 0 5 true ("float32") 0 2
      ([[[(1 : ℚ), 2]]], [(("t_00000.tiff" : String), [[(1 : ℚ), 2]])])
      (by norm_num) (by decide)⟩

/-! ### Claim C10 -/

theorem writeStackLoop_overflow (data2 : Vol) (fname : String) (digit : ℕ) (overwrite : Bool)
    (dtype : String) (dmin dmax : ℚ) (axis idStart : ℕ) (fs : TiffFS) (m count : ℕ)
    (hof : _add_index_to_string fname (idStart + m) digit = none) :
    writeStackLoop data2 fname digit overwrite dtype dmin dmax axis idStart fs m (count + 1) =
      none := by
  unfold writeStackLoop
  rw [hof]

/-- C10: for every digit width at least 1 and every index at or above
`10^digit`, the filename indexer returns no string at all (Python's implicit
`None`), and a caller that concatenates its result — `write_tiff_stack`
building a filename — receives that ill-formed value (modelled as the write
raising at the concatenation: `none`). -/
theorem claim_C10_indexer_overflow_none :
    (∀ (s : String) (ind digit : ℕ), 1 ≤ digit → 10 ^ digit ≤ ind →
      _add_index_to_string s ind digit = none) ∧
    (∀ (fs : TiffFS) (data : Vol) (fname : String) (digit idStart : ℕ)
       (overwrite : Bool) (dtype : String) (dmin? dmax? : Option ℚ),
      1 ≤ digit → 10 ^ digit ≤ idStart → volElems data ≠ [] → data ≠ [] →
      write_tiff_stack fs data fname 0 idStart digit overwrite dtype dmin? dmax? = none) := by
  constructor
  · intro s ind digit _ h
    exact addIndex_overflow s ind digit h
  · intro fs data fname digit idStart overwrite dtype dmin? dmax? _ hof hve hdat
    cases data with
    | nil => exact absurd rfl hdat
    | cons p ps =>
      obtain ⟨mx, hmx⟩ := npMax?_of_ne _ hve
      obtain ⟨mn, hmn⟩ := npMin?_of_ne _ hve
      rw [write_tiff_stack_axis0 fs (p :: ps) fname idStart digit overwrite dtype dmin? dmax?
        mx mn (dmin?.getD mn) (dmax?.getD mx) hmx hmn rfl rfl]
      have hlen : (mapVol (fun v => if v < dmin?.getD mn then dmin?.getD mn else v)
          (mapVol (fun v => if dmax?.getD mx < v then dmax?.getD mx else v) (p :: ps))).length =
          ps.length + 1 := by
        rw [mapVol_length, mapVol_length]
        rfl
      rw [hlen]
      have hnone : _add_index_to_string fname (idStart + 0) digit = none := by
        rw [Nat.add_zero]
        exact addIndex_overflow fname idStart digit hof
      rw [writeStackLoop_overflow _ fname digit overwrite dtype _ _ 0 idStart fs 0
        ps.length hnone]
      rfl

/-- Witness for C10 at a concrete overflowing index. -/
theorem claim_C10_witness :
    ((1 : ℕ) ≤ 5) ∧ ((10 : ℕ) ^ 5 ≤ 100000) ∧ (volElems [[[1]]] ≠ []) ∧
      (([[[(1 : ℚ)]]] : Vol) ≠ []) ∧
      _add_index_to_string ("t") 100000 5 = none ∧
      write_tiff_stack [] [[[1]]] ("t") 0 100000 5 true ("uint8") none none = none :=
  ⟨by norm_num, by norm_num, by decide, by decide,
    claim_C10_indexer_overflow_none.1 ("t") 100000 5 (by norm_num) (by norm_num),
    claim_C10_indexer_overflow_none.2 [] [[[1]]] ("t") 5 100000 true ("uint8") none none
      (by norm_num) (by norm_num) (by decide) (by decide)⟩

/-! ### Claim C2: names written by the TIFF-stack writer -/

/-- The full filename the writer produces for index `i`:
base, underscore, zero-padded decimal index, `.tiff`. -/
def wname (fname : String) (digit i : ℕ) : String :=
  fname ++ "_" ++ zerosStr (digit - decLen i) ++ natToDec i ++ tiffExt

theorem wname_data (fname : String) (digit i : ℕ) :
    (wname fname digit i).data =
      fname.data ++ ('_' :: ((padField digit i).data ++ tiffExt.data)) := by
  have hu : ("_" : String).data = ['_'] := rfl
  simp [wname, padField, String.data_append, hu, List.append_assoc]

theorem wname_inj (fname : String) (digit i j : ℕ) (hd : 1 ≤ digit)
    (hi : i < 10 ^ digit) (hj : j < 10 ^ digit)
    (h : wname fname digit i = wname fname digit j) : i = j := by
  have hdata := congrArg String.data h
  rw [wname_data, wname_data] at hdata
  have h2 := List.append_cancel_left hdata
  have h3 : (padField digit i).data ++ tiffExt.data =
      (padField digit j).data ++ tiffExt.data := by
    injection h2
  have hlen : (padField digit i).data.length = (padField digit j).data.length := by
    rw [padField_length digit i (decLen_le i digit hi hd),
      padField_length digit j (decLen_le j digit hj hd)]
  have h4 := (List.append_inj h3 hlen).1
  calc i = decValAux 0 (padField digit i).data := (padField_decode digit i).symm
  _ = decValAux 0 (padField digit j).data := by rw [h4]
  _ = j := padField_decode digit j

theorem addIndex_wname (fname : String) (digit i : ℕ) (hd : 1 ≤ digit) (hi : i < 10 ^ digit) :
    (_add_index_to_string fname i digit).map (fun s => s ++ tiffExt) =
      some (wname fname digit i) := by
  rw [addIndex_found fname i digit hd hi]
  rfl

theorem lookup_cons_self {β : Type} (k : String) (v : β) (fs : List (String × β)) :
    List.lookup k ((k, v) :: fs) = some v := by
  simp [List.lookup]

theorem lookup_cons_ne {β : Type} (k k1 : String) (v : β) (fs : List (String × β))
    (h : k ≠ k1) : List.lookup k ((k1, v) :: fs) = List.lookup k fs := by
  have hb : (k == k1) = false := beq_eq_false_iff_ne.2 h
  simp [List.lookup, hb]

theorem convertSlice_float32 (dmin dmax : ℚ) (arr : Img) :
    convertSlice ("float32") dmin dmax arr = some arr := by
  unfold convertSlice
  rw [if_neg (by decide), if_neg (by decide), if_pos rfl]

theorem writeStackLoop_step_float32 (data2 : Vol) (fname : String) (idStart m count : ℕ)
    (fs : TiffFS) (dmin dmax : ℚ) (s : String)
    (hadd : _add_index_to_string fname (idStart + m) 5 = some s) :
    writeStackLoop data2 fname 5 true ("float32") dmin dmax 0 idStart fs m (count + 1) =
      writeStackLoop data2 fname 5 true ("float32") dmin dmax 0 idStart
        ((s ++ tiffExt, data2.getD m []) :: fs) (m + 1) count := by
  conv_lhs => unfold writeStackLoop
  rw [hadd]
  dsimp only
  rw [if_neg (show ¬ ((!true && isfile fs (s ++ tiffExt)) = true) by simp)]
  rw [if_pos (show (0 : ℕ) = 0 from rfl)]
  rw [convertSlice_float32]

/-- The float32-export write loop succeeds when every index is representable,
records each plane under its indexed filename, and leaves other names bound
as before. -/
theorem writeStackLoop_float32_spec (data2 : Vol) (fname : String) (idStart : ℕ)
    (dmin dmax : ℚ) :
    ∀ (count m : ℕ) (fs : TiffFS),
      idStart + m + count ≤ 10 ^ 5 →
      ∃ fs2,
        writeStackLoop data2 fname 5 true ("float32") dmin dmax 0 idStart fs m count =
          some fs2 ∧
        (∀ k, k < count →
          List.lookup (wname fname 5 (idStart + m + k)) fs2 =
            some (data2.getD (m + k) [])) ∧
        (∀ name, (∀ k, k < count → name ≠ wname fname 5 (idStart + m + k)) →
          List.lookup name fs2 = List.lookup name fs) := by
  intro count
  induction count with
  | zero =>
    intro m fs _
    refine ⟨fs, rfl, ?_, ?_⟩
    · intro k hk
      omega
    · intro name _
      rfl
  | succ count ih =>
    intro m fs hbound
    have hidx : idStart + m < 10 ^ 5 := by omega
    have hadd := addIndex_found fname (idStart + m) 5 (by norm_num) hidx
    rw [writeStackLoop_step_float32 data2 fname idStart m count fs dmin dmax _ hadd]
    obtain ⟨fs2, hloop, hlk, hpass⟩ :=
      ih (m + 1) ((wname fname 5 (idStart + m), data2.getD m []) :: fs) (by omega)
    have hwn : (fname ++ "_" ++ zerosStr (5 - decLen (idStart + m)) ++
        natToDec (idStart + m)) ++ tiffExt = wname fname 5 (idStart + m) := rfl
    rw [hwn]
    refine ⟨fs2, hloop, ?_, ?_⟩
    · intro k hk
      cases k with
      | zero =>
        have hne : ∀ k', k' < count →
            wname fname 5 (idStart + m) ≠ wname fname 5 (idStart + (m + 1) + k') := by
          intro k' hk' hcon
          have := wname_inj fname 5 (idStart + m) (idStart + (m + 1) + k')
            (by norm_num) (by omega) (by omega) hcon
          omega
        have := hpass (wname fname 5 (idStart + m)) hne
        rw [Nat.add_zero, Nat.add_zero, this, lookup_cons_self]
      | succ k' =>
        have h1 : idStart + m + (k' + 1) = idStart + (m + 1) + k' := by omega
        have h2 : m + (k' + 1) = (m + 1) + k' := by omega
        rw [h1, h2]
        exact hlk k' (by omega)
    · intro name hne
      have hne' : ∀ k', k' < count → name ≠ wname fname 5 (idStart + (m + 1) + k') := by
        intro k' hk'
        have h1 : idStart + (m + 1) + k' = idStart + m + (k' + 1) := by omega
        rw [h1]
        exact hne (k' + 1) (by omega)
      rw [hpass name hne', lookup_cons_ne]
      have h0 := hne 0 (by omega)
      rw [Nat.add_zero] at h0
      exact h0

theorem find?_pow_ten (digit m : ℕ) (hd : 1 ≤ digit) (hm : m < 10 ^ digit) :
    (List.range digit).find? (fun n => m < 10 ^ (n + 1)) = some (decLen m - 1) := by
  obtain ⟨h1, h2, h3⟩ := decLen_spec m
  apply find?_range_first
  · intro n hn
    exact decide_eq_false (h2 n (by omega))
  · apply decide_eq_true
    have hstep : decLen m - 1 + 1 = decLen m := by omega
    rw [hstep]
    exact h1
  · have := decLen_le m digit hm hd
    omega

theorem readName_eq_wname (fname : String) (m : ℕ) (_hm : m < 10 ^ 5) :
    (fname ++ "_") ++ zerosStr (5 - (decLen m - 1) - 1) ++ natToDec m ++ "." ++ ("tiff") =
      wname fname 5 m := by
  obtain ⟨_, _, h3⟩ := decLen_spec m
  have harith : 5 - (decLen m - 1) - 1 = 5 - decLen m := by omega
  rw [harith]
  unfold wname tiffExt
  rw [String.append_assoc]
  congr 1

theorem readImgs_eq (fs2 : TiffFS) (fname : String) (f : ℕ → Img) :
    ∀ l : List ℕ,
      (∀ m ∈ l, m < 10 ^ 5 ∧ List.lookup (wname fname 5 m) fs2 = some (f m)) →
      readImgs fs2 (fname ++ "_") ("tiff") 5 l = some (l.map f) := by
  intro l
  induction l with
  | nil => intro _; rfl
  | cons m rest ih =>
    intro h
    obtain ⟨hm, hlk⟩ := h m (by simp)
    conv_lhs => unfold readImgs
    rw [find?_pow_ten 5 m (by norm_num) hm]
    dsimp only
    rw [readName_eq_wname fname m hm, hlk]
    dsimp only
    rw [ih (fun m' hm' => h m' (by simp [hm']))]
    rfl

theorem range'_map_getD (data2 : Vol) : ∀ idStart : ℕ,
    (List.range' idStart data2.length).map (fun m => data2.getD (m - idStart) []) = data2 := by
  induction data2 with
  | nil => intro idStart; rfl
  | cons p ps ih =>
    intro idStart
    show (List.range' idStart (ps.length + 1)).map
        (fun m => (p :: ps).getD (m - idStart) []) = p :: ps
    rw [List.range'_succ]
    rw [List.map_cons]
    congr 1
    · rw [Nat.sub_self]
      rfl
    · have hcongr : (List.range' (idStart + 1) ps.length).map
          (fun m => (p :: ps).getD (m - idStart) []) =
          (List.range' (idStart + 1) ps.length).map
            (fun m => ps.getD (m - (idStart + 1)) []) := by
        apply List.map_congr_left
        intro m hmem
        have hge : idStart + 1 ≤ m := (List.mem_range'_1.1 hmem).1
        have hsub : m - idStart = (m - (idStart + 1)) + 1 := by omega
        rw [hsub]
        rfl
      rw [hcongr, ih (idStart + 1)]

theorem assembleStack_full (data : Vol) (ny nz : ℕ) (hrect : rectVol data ny nz)
    (hny : 1 ≤ ny) (hnx : data ≠ []) :
    assembleStack (some data) data.length = some data := by
  cases data with
  | nil => exact absurd rfl hnx
  | cons img0 rest =>
    unfold assembleStack
    dsimp only
    have hcheck : ((img0 :: rest).all (fun im =>
        im.length == img0.length && im.all (fun r =>
          r.length == (img0.headD []).length))) = true := by
      apply List.all_eq_true.2
      intro im him
      rw [Bool.and_eq_true]
      constructor
      · apply beq_iff_eq.2
        rw [(hrect im him).1, (hrect img0 (by simp)).1]
      · apply List.all_eq_true.2
        intro r hr
        apply beq_iff_eq.2
        rw [(hrect im him).2 r hr]
        cases himg0 : img0 with
        | nil =>
          exfalso
          have := (hrect img0 (by simp)).1
          rw [himg0] at this
          simp at this
          omega
        | cons r0 rs =>
          show nz = r0.length
          rw [(hrect img0 (by simp)).2 r0 (by rw [himg0]; simp)]
    rw [if_pos hcheck]
    rw [Nat.sub_self]
    simp

/-- C2: writing a 3-D volume with `write_tiff_stack` along axis 0 with digit
width 5 (float32 export, bounds unset, every index representable) and then
reading the written files back with `read_tiff_stack` over the same index
span `[idStart, idStart + nx - 1]` and digit width 5 returns the identical
volume.  The reader builds each per-index filename with the same zero-padding
convention as the writer's indexer; it is pointed at the written stack by the
writer's base name followed by the `_` separator that the indexer inserts. -/
theorem claim_C2_tiff_stack_roundtrip (fs : TiffFS) (data : Vol) (fname : String)
    (idStart ny nz : ℕ) (hrect : rectVol data ny nz) (hny : 1 ≤ ny)
    (hve : volElems data ≠ []) (hnx : data ≠ [])
    (hrange : idStart + data.length ≤ 10 ^ 5) :
    ∃ fs2,
      write_tiff_stack fs data fname 0 idStart 5 true ("float32") none none =
        some (data, fs2) ∧
      read_tiff_stack fs2 (fname ++ "_") (idStart, idStart + data.length - 1) 5 ("tiff") =
        some data := by
  obtain ⟨mx, hmx⟩ := npMax?_of_ne _ hve
  obtain ⟨mn, hmn⟩ := npMin?_of_ne _ hve
  have hupper : mapVol (fun v => if mx < v then mx else v) data = data := by
    apply mapVol_eq_self
    intro v hv
    rw [if_neg (not_lt.2 (npMax?_ge _ _ hmx v hv))]
  have hlower : mapVol (fun v => if v < mn then mn else v) data = data := by
    apply mapVol_eq_self
    intro v hv
    rw [if_neg (not_lt.2 (npMin?_le _ _ hmn v hv))]
  have hw := write_tiff_stack_axis0 fs data fname idStart 5 true ("float32") none none
    mx mn mn mx hmx hmn rfl rfl
  rw [hupper, hlower] at hw
  obtain ⟨fs2, hloop, hlk, _⟩ :=
    writeStackLoop_float32_spec data fname idStart mn mx data.length 0 fs (by omega)
  rw [hloop] at hw
  refine ⟨fs2, hw, ?_⟩
  unfold read_tiff_stack
  have hcnt : idStart + data.length - 1 + 1 - idStart = data.length := by
    cases data with
    | nil => exact absurd rfl hnx
    | cons p ps =>
      simp only [List.length_cons]
      omega
  dsimp only
  rw [hcnt]
  have hread : readImgs fs2 (fname ++ "_") ("tiff") 5 (List.range' idStart data.length) =
      some ((List.range' idStart data.length).map (fun m => data.getD (m - idStart) [])) := by
    apply readImgs_eq
    intro m hmem
    obtain ⟨hge, hlt⟩ := List.mem_range'_1.1 hmem
    refine ⟨by omega, ?_⟩
    have hk := hlk (m - idStart) (by omega)
    have h1 : idStart + 0 + (m - idStart) = m := by omega
    have h2 : 0 + (m - idStart) = m - idStart := by omega
    rw [h1, h2] at hk
    exact hk
  rw [hread, range'_map_getD data idStart, List.length_range']
  exact assembleStack_full data ny nz hrect hny hnx

/-- Witness for C2 at a concrete 2-plane volume. -/
theorem claim_C2_witness :
    rectVol [[[1, 2], [3, 4]], [[5, 6], [7, 8]]] 2 2 ∧ (1 : ℕ) ≤ 2 ∧
      volElems [[[1, 2], [3, 4]], [[5, 6], [7, 8]]] ≠ [] ∧
      ([[[(1 : ℚ), 2], [3, 4]], [[5, 6], [7, 8]]] : Vol) ≠ [] ∧
      7 + ([[[(1 : ℚ), 2], [3, 4]], [[5, 6], [7, 8]]] : Vol).length ≤ 10 ^ 5 ∧
      (∃ fs2,
        write_tiff_stack [] [[[1, 2], [3, 4]], [[5, 6], [7, 8]]] ("vol") 0 7 5 true
            ("float32") none none =
          some ([[[1, 2], [3, 4]], [[5, 6], [7, 8]]], fs2) ∧
        read_tiff_stack fs2 (("vol") ++ "_")
            (7, 7 + ([[[(1 : ℚ), 2], [3, 4]], [[5, 6], [7, 8]]] : Vol).length - 1) 5
            ("tiff") =
          some [[[1, 2], [3, 4]], [[5, 6], [7, 8]]]) :=
  ⟨by decide, by norm_num, by decide, by decide, by norm_num,
    claim_C2_tiff_stack_roundtrip [] [[[1, 2], [3, 4]], [[5, 6], [7, 8]]] ("vol") 7 2 2
      (by decide) (by norm_num) (by decide) (by decide) (by norm_num)⟩

end Tomopy
